import Mathlib

/-!
Verification of the rnostr relay core against its specification.

The relay's filter-matching, event-store and broadcast components live in
crates whose sources are not part of this excerpt (only `relay/src/app.rs`
and `db/src/error.rs` are present); those components are modelled from the
specification text, as marked on each definition.  The HTTP routing layer
(`app.rs`) is embedded directly from the source.
-/

namespace Rnostr

/-- Modelled from the spec: §3 Event — the event record of the `nostr-db`
crate (not under src/).  `id`, `pubkey`, `sig` are fixed-length hex strings,
`created_at` a signed 64-bit unix timestamp (modelled as `Int`), `kind` an
unsigned integer, `tags` an ordered sequence of string sequences whose first
element is the tag name and whose first value is indexed. -/
structure Event where
  id : String
  pubkey : String
  created_at : Int
  kind : Nat
  tags : List (List String)
  content : String
  sig : String
deriving DecidableEq, Repr

/-- Modelled from the spec: §3 Filter — id-prefixes, author-prefixes, kinds,
`since`/`until` time bounds, tag-name to accepted-values mapping, and an
optional result `limit`.  An empty list means the field is absent (no
restriction). -/
structure Filter where
  ids : List String
  authors : List String
  kinds : List Nat
  since : Option Int
  till : Option Int
  tags : List (String × List String)
  limit : Option Nat
deriving DecidableEq, Repr

/-- String prefix test used for id- and author-prefix filter fields. -/
def strIsPref (p s : String) : Bool :=
  p.toList.isPrefixOf s.toList

/-- Modelled from the spec: an event carries tag `name` with indexed value
`v` when some tag entry has `name` as its first element and `v` as its first
value. -/
def eventHasTag (e : Event) (name v : String) : Bool :=
  e.tags.any (fun t =>
    match t with
    | n :: v1 :: _ => n == name && v1 == v
    | _ => false)

/-- One plain-set filter field (ids, authors, kinds): an empty set is an
absent field (no restriction); a non-empty set is satisfied when any listed
value passes (OR within the field).  Tag entries are different: a tag name
present in the mapping is always a restriction — see `matchEvent`. -/
def matchList {α : Type} (vals : List α) (p : α → Bool) : Bool :=
  vals.isEmpty || vals.any p

/-- `since` bound: absent, or `since ≤ created_at`. -/
def sinceOk (o : Option Int) (t : Int) : Bool :=
  match o with
  | none => true
  | some s => decide (s ≤ t)

/-- `until` bound: absent, or `created_at ≤ until`. -/
def untilOk (o : Option Int) (t : Int) : Bool :=
  match o with
  | none => true
  | some u => decide (t ≤ u)

/-- Modelled from the spec: §4.2 `matches(filter, event)` — all present
fields ANDed, values within a field ORed, id/author fields by prefix,
`since`/`until` inclusive bounds, tag entries each requiring one accepted
indexed value.  Per §4.2's stated convention, a tag entry present in the
mapping with an empty accepted-value set is unmatched by every event (the
OR over its listed values has no disjunct).  `limit` is not read. -/
def matchEvent (f : Filter) (e : Event) : Bool :=
  matchList f.ids (fun p => strIsPref p e.id) &&
  matchList f.authors (fun p => strIsPref p e.pubkey) &&
  matchList f.kinds (fun k => k == e.kind) &&
  sinceOk f.since e.created_at &&
  untilOk f.till e.created_at &&
  f.tags.all (fun nv => nv.2.any (fun v => eventHasTag e nv.1 v))

/-- The claim's reading of filter semantics, written as a logical
conjunction over the present fields: each present field must be satisfied,
with the listed values ORed inside a field. -/
def specMatch (f : Filter) (e : Event) : Prop :=
  (f.ids ≠ [] → ∃ p ∈ f.ids, strIsPref p e.id = true) ∧
  (f.authors ≠ [] → ∃ p ∈ f.authors, strIsPref p e.pubkey = true) ∧
  (f.kinds ≠ [] → e.kind ∈ f.kinds) ∧
  (∀ s, f.since = some s → s ≤ e.created_at) ∧
  (∀ u, f.till = some u → e.created_at ≤ u) ∧
  (∀ nv ∈ f.tags, ∃ v ∈ nv.2, eventHasTag e nv.1 v = true)

theorem matchList_iff {α : Type} (vals : List α) (p : α → Bool) :
    matchList vals p = true ↔ (vals ≠ [] → ∃ a ∈ vals, p a = true) := by
  simp only [matchList, Bool.or_eq_true, List.isEmpty_iff, List.any_eq_true]
  tauto

theorem sinceOk_iff (o : Option Int) (t : Int) :
    sinceOk o t = true ↔ ∀ s, o = some s → s ≤ t := by
  cases o <;> simp [sinceOk]

theorem untilOk_iff (o : Option Int) (t : Int) :
    untilOk o t = true ↔ ∀ u, o = some u → t ≤ u := by
  cases o <;> simp [untilOk]

/-- C1: `matchEvent` agrees with the spec predicate — every present field must
be satisfied (AND across fields), values inside a field are ORed, a filter
with no restricting field matches every event, and the `limit` field is
never consulted by `matchEvent`. -/
theorem matchEvent_iff_specMatch (f : Filter) (e : Event) (l : Option Nat) :
    (matchEvent f e = true ↔ specMatch f e) ∧
    matchEvent { f with limit := l } e = matchEvent f e ∧
    matchEvent (Filter.mk [] [] [] none none [] l) e = true := by
  refine ⟨?_, rfl, rfl⟩
  simp only [matchEvent, specMatch, Bool.and_eq_true, matchList_iff, sinceOk_iff,
    untilOk_iff, List.all_eq_true, List.any_eq_true, and_assoc]
  constructor
  · rintro ⟨h1, h2, h3, h4, h5, h6⟩
    refine ⟨h1, h2, ?_, h4, h5, h6⟩
    intro hne
    rcases h3 hne with ⟨k, hk, hkeq⟩
    exact eq_of_beq hkeq ▸ hk
  · rintro ⟨h1, h2, h3, h4, h5, h6⟩
    refine ⟨h1, h2, ?_, h4, h5, h6⟩
    intro hne
    exact ⟨e.kind, h3 hne, by simp⟩

/-! ### Event store -/

/-- Modelled from the spec: §4.3 Event Store — durable storage keyed by
`id`; modelled as the list of stored (non-tombstoned) events, newest
first. -/
structure Store where
  events : List Event
deriving DecidableEq, Repr

/-- Modelled from the spec: §4.3 `put` result — `Inserted` or `Duplicate`
(not an error). -/
inductive PutStatus
| Inserted
| Duplicate
deriving DecidableEq, Repr

/-- Whether the store already holds an event with the given id. -/
def containsId (s : Store) (i : String) : Bool :=
  s.events.any (fun e => e.id == i)

/-- Modelled from the spec: §4.3 `put(event)` — idempotent on `id`:
inserting an id already present is a no-op signalled as `Duplicate`. -/
def put (s : Store) (e : Event) : PutStatus × Store :=
  if containsId s e.id then (PutStatus.Duplicate, s)
  else (PutStatus.Inserted, Store.mk (e :: s.events))

/-- Query output order: `created_at` descending, ties broken by `id`
descending. -/
def qOrder (a b : Event) : Prop :=
  b.created_at < a.created_at ∨ (a.created_at = b.created_at ∧ b.id ≤ a.id)

instance : DecidableRel qOrder := fun a b => by
  unfold qOrder
  infer_instance

instance : IsTrans Event qOrder where
  trans a b c hab hbc := by
    rcases hab with h1 | ⟨h1, h2⟩ <;> rcases hbc with h3 | ⟨h3, h4⟩
    · exact Or.inl (h3.trans h1)
    · exact Or.inl (h3 ▸ h1)
    · exact Or.inl (h1.symm ▸ h3)
    · exact Or.inr ⟨h1.trans h3, h4.trans h2⟩

instance : IsTotal Event qOrder where
  total a b := by
    rcases lt_trichotomy a.created_at b.created_at with h | h | h
    · exact Or.inr (Or.inl h)
    · rcases le_total a.id b.id with hid | hid
      · exact Or.inr (Or.inr ⟨h.symm, hid⟩)
      · exact Or.inl (Or.inr ⟨h, hid⟩)
    · exact Or.inl (Or.inl h)

/-- Modelled from the spec: §4.3 `query(filter, limit)` — the matching
events, ordered by `created_at` descending with ties by `id` descending,
truncated at `min(filter.limit, server_max_limit)` (an absent
`filter.limit` imposes no extra bound). -/
def query (s : Store) (f : Filter) (serverMax : Nat) : List Event :=
  (List.insertionSort qOrder (s.events.filter (fun e => matchEvent f e))).take
    (min (f.limit.getD serverMax) serverMax)

/-- A concrete event used by witnesses and counterexamples. -/
def ev0 : Event :=
  Event.mk "aa11" "pk01" 0 1 [] "hello" "sig01"

/-- An unrestricted filter used by witnesses. -/
def emptyFilter : Filter :=
  Filter.mk [] [] [] none none [] none

/-- C3: `query` returns a sequence sorted by `created_at` descending with
ties broken by `id` descending, of length at most
`min(filter.limit, server_max_limit)`, each element matching the filter. -/
theorem query_sorted_bounded_matching (s : Store) (f : Filter) (m : Nat) :
    List.Sorted qOrder (query s f m) ∧
    (query s f m).length ≤ min (f.limit.getD m) m ∧
    ∀ e ∈ query s f m, matchEvent f e = true := by
  refine ⟨?_, ?_, ?_⟩
  · exact List.Pairwise.sublist (List.take_sublist _ _)
      (List.sorted_insertionSort qOrder _)
  · exact List.length_take_le _ _
  · intro e he
    have h1 : e ∈ List.insertionSort qOrder
        (s.events.filter (fun x => matchEvent f x)) :=
      (List.take_sublist _ _).subset he
    rw [List.mem_insertionSort] at h1
    exact (List.mem_filter.mp h1).2

/-- Witness for C3 at a one-event store and the unrestricted filter. -/
theorem query_sorted_bounded_matching_witness :
    List.Sorted qOrder (query (Store.mk [ev0]) emptyFilter 5) ∧
    (query (Store.mk [ev0]) emptyFilter 5).length ≤
      min (emptyFilter.limit.getD 5) 5 ∧
    matchEvent emptyFilter ev0 = true := by
  have h := query_sorted_bounded_matching (Store.mk [ev0]) emptyFilter 5
  exact ⟨h.1, h.2.1, h.2.2 ev0 (by decide)⟩

/-- C2 counterexample: on a store that already holds the event's id, the
first of the two `put` calls answers `Duplicate`, not `Inserted`, so the
claim's universal quantification over store states fails. -/
theorem put_first_call_not_always_inserted :
    (put (Store.mk [ev0]) ev0).1 = PutStatus.Duplicate ∧
    PutStatus.Duplicate ≠ PutStatus.Inserted := by
  constructor
  · decide
  · decide

/-- C2 (amended): for a store holding no event with `e.id`, `put e` twice
yields `Inserted` then `Duplicate`, the second call leaves the store
unchanged, and `query` returns an event with that id at most once. -/
theorem put_idempotent (s : Store) (e : Event) (f : Filter) (m : Nat)
    (h : containsId s e.id = false) :
    (put s e).1 = PutStatus.Inserted ∧
    (put (put s e).2 e).1 = PutStatus.Duplicate ∧
    (put (put s e).2 e).2 = (put s e).2 ∧
    List.countP (fun x => x.id == e.id)
      (query (put (put s e).2 e).2 f m) ≤ 1 := by
  have hput : put s e = (PutStatus.Inserted, Store.mk (e :: s.events)) := by
    simp [put, h]
  have hcontains : containsId (Store.mk (e :: s.events)) e.id = true := by
    simp [containsId]
  have hput2 : put (put s e).2 e = (PutStatus.Duplicate, Store.mk (e :: s.events)) := by
    rw [hput]
    simp [put, hcontains]
  refine ⟨by rw [hput], by rw [hput2], by rw [hput2, hput], ?_⟩
  rw [hput2]
  have hzero : List.countP (fun x => x.id == e.id) s.events = 0 := by
    rw [List.countP_eq_zero]
    intro a ha hbeq
    have : s.events.any (fun x => x.id == e.id) = true :=
      List.any_eq_true.mpr ⟨a, ha, hbeq⟩
    rw [containsId] at h
    simp [this] at h
  have hstore : List.countP (fun x => x.id == e.id) (e :: s.events) = 1 := by
    rw [List.countP_cons_of_pos _ _ (by simp), hzero]
  calc List.countP (fun x => x.id == e.id)
        (query (Store.mk (e :: s.events)) f m)
      ≤ List.countP (fun x => x.id == e.id)
        (List.insertionSort qOrder
          ((e :: s.events).filter (fun x => matchEvent f x))) :=
        (List.take_sublist _ _).countP_le _
    _ = List.countP (fun x => x.id == e.id)
        ((e :: s.events).filter (fun x => matchEvent f x)) :=
        (List.perm_insertionSort qOrder _).countP_eq _
    _ ≤ List.countP (fun x => x.id == e.id) (e :: s.events) :=
        (List.filter_sublist _).countP_le _
    _ = 1 := hstore

/-- Witness for C2 (amended) at the empty store. -/
theorem put_idempotent_witness :
    containsId (Store.mk []) ev0.id = false ∧
    (put (Store.mk []) ev0).1 = PutStatus.Inserted ∧
    (put (put (Store.mk []) ev0).2 ev0).1 = PutStatus.Duplicate ∧
    (put (put (Store.mk []) ev0).2 ev0).2 = (put (Store.mk []) ev0).2 ∧
    List.countP (fun x => x.id == ev0.id)
      (query (put (put (Store.mk []) ev0).2 ev0).2 emptyFilter 5) ≤ 1 := by
  have h := put_idempotent (Store.mk []) ev0 emptyFilter 5 (by decide)
  exact ⟨by decide, h.1, h.2.1, h.2.2.1, h.2.2.2⟩

/-! ### Replaceable events -/

/-- Modelled from the spec: the distinguishing tag of a parameterized
replaceable event — the indexed (first) value of its first `d` tag. -/
def dTag (e : Event) : Option String :=
  (e.tags.find? (fun t => t.head? == some "d")).bind (fun t => t[1]?)

/-- Modelled from the spec: the parameterized-replaceable kind range. -/
def isParamKind (k : Nat) : Bool :=
  decide (30000 ≤ k) && decide (k < 40000)

/-- Modelled from the spec: §4.3 replacement key — `(pubkey, kind)`,
additionally scoped by the distinguishing tag value for parameterized
replaceable kinds. -/
def replaceKey (e : Event) : String × Nat × Option String :=
  (e.pubkey, e.kind, if isParamKind e.kind then dTag e else none)

/-- Modelled from the spec: §4.3 supersession — newer `created_at` wins,
ties broken by the lexicographically smaller `id`. -/
def supersedes (a b : Event) : Bool :=
  decide (b.created_at < a.created_at) ||
  (decide (a.created_at = b.created_at) && decide (a.id < b.id))

/-- Modelled from the spec: §4.3 `replace_if_newer(event)` — if the store
holds an instance with the same replacement key, the incoming event either
supersedes it (tombstoning every same-key instance) or is discarded;
otherwise it is stored. -/
def replaceIfNewer (s : Store) (e : Event) : Store :=
  match s.events.find? (fun o => decide (replaceKey o = replaceKey e)) with
  | none => Store.mk (e :: s.events)
  | some o =>
    if supersedes e o then
      Store.mk (e :: s.events.filter (fun x => !(decide (replaceKey x = replaceKey e))))
    else s

/-- The queryable events carrying a given replacement key. -/
def keyEvents (s : Store) (k : String × Nat × Option String) : List Event :=
  s.events.filter (fun x => decide (replaceKey x = k))

/-- The claim's winner among two same-key events: greater `created_at`;
on equal `created_at`, the lexicographically smaller `id`. -/
def specWinner (a b : Event) : Event :=
  if b.created_at < a.created_at then a
  else if a.created_at < b.created_at then b
  else if a.id < b.id then a else b

theorem supersedes_specWinner (e1 e2 : Event) (hid : e1.id ≠ e2.id) :
    (supersedes e2 e1 = true → specWinner e1 e2 = e2) ∧
    (supersedes e2 e1 = false → specWinner e1 e2 = e1) ∧
    (supersedes e1 e2 = true → specWinner e1 e2 = e1) ∧
    (supersedes e1 e2 = false → specWinner e1 e2 = e2) := by
  rcases lt_trichotomy e1.created_at e2.created_at with h | h | h
  · simp [supersedes, specWinner, h, lt_asymm h, h.ne, h.ne']
  · rcases lt_trichotomy e1.id e2.id with hI | hI | hI
    · simp [supersedes, specWinner, h, hI, lt_asymm hI]
    · exact absurd hI hid
    · simp [supersedes, specWinner, h, hI, lt_asymm hI, lt_irrefl]
  · simp [supersedes, specWinner, h, lt_asymm h, h.ne, h.ne']

theorem replaceIfNewer_of_absent (s : Store) (e : Event)
    (hs : ∀ x ∈ s.events, replaceKey x ≠ replaceKey e) :
    replaceIfNewer s e = Store.mk (e :: s.events) := by
  have hfind : s.events.find? (fun o => decide (replaceKey o = replaceKey e)) = none := by
    rw [List.find?_eq_none]
    intro x hx
    simp [hs x hx]
  unfold replaceIfNewer
  rw [hfind]

theorem replaceIfNewer_head_same_key (l : List Event) (o e : Event)
    (hk : replaceKey o = replaceKey e) :
    replaceIfNewer (Store.mk (o :: l)) e =
      if supersedes e o then
        Store.mk (e :: (o :: l).filter (fun x => !(decide (replaceKey x = replaceKey e))))
      else Store.mk (o :: l) := by
  have hfind : (o :: l).find? (fun x => decide (replaceKey x = replaceKey e)) = some o :=
    List.find?_cons_of_pos _ (by simp [hk])
  unfold replaceIfNewer
  rw [hfind]

theorem replace_pair (s : Store) (a b : Event)
    (hk : replaceKey a = replaceKey b)
    (hs : ∀ x ∈ s.events, replaceKey x ≠ replaceKey a) :
    keyEvents (replaceIfNewer (replaceIfNewer s a) b) (replaceKey a) =
      (if supersedes b a then [b] else [a]) := by
  rw [replaceIfNewer_of_absent s a hs]
  rw [replaceIfNewer_head_same_key s.events a b hk]
  by_cases hsup : supersedes b a = true
  · rw [if_pos hsup, if_pos hsup]
    have h1 : (a :: s.events).filter
        (fun x => !(decide (replaceKey x = replaceKey b))) =
        s.events.filter (fun x => !(decide (replaceKey x = replaceKey b))) := by
      simp [List.filter_cons, hk]
    have h2 : s.events.filter
        (fun x => !(decide (replaceKey x = replaceKey b))) = s.events := by
      rw [List.filter_eq_self]
      intro x hx
      simp [hk ▸ hs x hx]
    rw [h1, h2]
    have h3 : s.events.filter
        (fun x => decide (replaceKey x = replaceKey a)) = [] := by
      rw [List.filter_eq_nil_iff]
      intro x hx
      simp [hs x hx]
    simp [keyEvents, List.filter_cons, hk.symm, h3]
  · rw [if_neg hsup, if_neg hsup]
    have h3 : s.events.filter
        (fun x => decide (replaceKey x = replaceKey a)) = [] := by
      rw [List.filter_eq_nil_iff]
      intro x hx
      simp [hs x hx]
    simp [keyEvents, List.filter_cons, h3]

/-- C4: two replaceable events with the same replacement key and distinct
ids, stored by `replace_if_newer` in either arrival order into a store with
no event of that key, leave exactly one event of that key queryable: the
one with the greater `created_at`, ties going to the lexicographically
smaller `id`. -/
theorem replace_newest_wins_either_order (s : Store) (e1 e2 : Event)
    (hk : replaceKey e1 = replaceKey e2) (hid : e1.id ≠ e2.id)
    (hs : ∀ x ∈ s.events, replaceKey x ≠ replaceKey e1) :
    keyEvents (replaceIfNewer (replaceIfNewer s e1) e2) (replaceKey e1) =
      [specWinner e1 e2] ∧
    keyEvents (replaceIfNewer (replaceIfNewer s e2) e1) (replaceKey e1) =
      [specWinner e1 e2] := by
  rcases supersedes_specWinner e1 e2 hid with ⟨w1, w2, w3, w4⟩
  have hs2 : ∀ x ∈ s.events, replaceKey x ≠ replaceKey e2 :=
    fun x hx => hk ▸ hs x hx
  constructor
  · rw [replace_pair s e1 e2 hk hs]
    by_cases hsup : supersedes e2 e1 = true
    · rw [if_pos hsup, w1 hsup]
    · rw [if_neg hsup, w2 (Bool.not_eq_true _ ▸ hsup)]
  · have h := replace_pair s e2 e1 hk.symm hs2
    rw [hk.symm] at h
    rw [h]
    by_cases hsup : supersedes e1 e2 = true
    · rw [if_pos hsup, w3 hsup]
    · rw [if_neg hsup, w4 (Bool.not_eq_true _ ▸ hsup)]

/-- A second concrete event sharing `ev1`'s replacement key. -/
def ev1 : Event :=
  Event.mk "bb22" "pk02" 10 0 [] "older" "sig02"

/-- A newer event with `ev1`'s replacement key. -/
def ev2 : Event :=
  Event.mk "cc33" "pk02" 20 0 [] "newer" "sig03"

/-- Witness for C4: the `created_at = 20` event wins in both arrival
orders over the `created_at = 10` event with the same key. -/
theorem replace_newest_wins_witness :
    keyEvents (replaceIfNewer (replaceIfNewer (Store.mk []) ev1) ev2)
      (replaceKey ev1) = [specWinner ev1 ev2] ∧
    keyEvents (replaceIfNewer (replaceIfNewer (Store.mk []) ev2) ev1)
      (replaceKey ev1) = [specWinner ev1 ev2] :=
  replace_newest_wins_either_order (Store.mk []) ev1 ev2 (by decide)
    (by decide) (by intro x hx; simp at hx)

/-! ### Atomic writes -/

/-- Modelled from the spec: §4.3 secondary index keys — `(kind, created_at)`,
`(pubkey, kind, created_at)` and `(tag_name, tag_value, created_at)`. -/
inductive IndexKey
| byKind (kind : Nat) (t : Int)
| byAuthor (pk : String) (kind : Nat) (t : Int)
| byTag (name v : String) (t : Int)
deriving DecidableEq, Repr

/-- Modelled from the spec: §4.3/§6 persisted layout — event bytes keyed by
id plus the secondary index entries, as visible to readers. -/
structure IStore where
  byId : List (String × Event)
  index : List (IndexKey × String)
deriving DecidableEq, Repr

/-- The index entries derivable from one event record. -/
def indexEntries (e : Event) : List (IndexKey × String) :=
  (IndexKey.byKind e.kind e.created_at, e.id) ::
  (IndexKey.byAuthor e.pubkey e.kind e.created_at, e.id) ::
  e.tags.filterMap (fun t =>
    match t with
    | n :: v :: _ => some (IndexKey.byTag n v e.created_at, e.id)
    | _ => none)

/-- One elementary write of an event-write transaction. -/
inductive WriteOp
| putEvent (ie : String × Event)
| putIndex (en : IndexKey × String)
deriving DecidableEq, Repr

def applyOp (s : IStore) (op : WriteOp) : IStore :=
  match op with
  | WriteOp.putEvent ie => IStore.mk (ie :: s.byId) s.index
  | WriteOp.putIndex en => IStore.mk s.byId (en :: s.index)

def applyOps (s : IStore) (ops : List WriteOp) : IStore :=
  ops.foldl applyOp s

/-- The elementary writes making up `put(event)`: the primary record and
every index entry. -/
def putSteps (e : Event) : List WriteOp :=
  WriteOp.putEvent (e.id, e) :: (indexEntries e).map WriteOp.putIndex

inductive StorageError
| ioFailure
deriving DecidableEq, Repr

/-- Modelled from the spec: §4.3 atomic per-event write — the elementary
writes run inside one transaction; an I/O failure at any step (`failAt`
injects one before step `k`) aborts the whole transaction, and only a fully
applied transaction is committed. -/
def putAtomic (s : IStore) (e : Event) (failAt : Option Nat) :
    Except StorageError IStore :=
  match failAt with
  | some k =>
    if k < (putSteps e).length then Except.error StorageError.ioFailure
    else Except.ok (applyOps s (putSteps e))
  | none => Except.ok (applyOps s (putSteps e))

/-- The store state observable to readers after a write attempt: the prior
state when the write failed, the committed state otherwise. -/
def visibleAfter (s : IStore) (r : Except StorageError IStore) : IStore :=
  match r with
  | Except.error _ => s
  | Except.ok s2 => s2

def hasEvent (s : IStore) (e : Event) : Bool :=
  s.byId.any (fun p => decide (p = (e.id, e)))

def hasAllIndexEntries (s : IStore) (e : Event) : Bool :=
  (indexEntries e).all (fun en => s.index.any (fun x => decide (x = en)))

theorem applyOps_putIndex (s : IStore) (ens : List (IndexKey × String)) :
    applyOps s (ens.map WriteOp.putIndex) =
      IStore.mk s.byId (ens.reverse ++ s.index) := by
  induction ens generalizing s with
  | nil => rfl
  | cons a l ih =>
    show applyOps (applyOp s (WriteOp.putIndex a)) (l.map WriteOp.putIndex) = _
    rw [ih]
    simp [applyOp]

theorem applyOps_putSteps (s : IStore) (e : Event) :
    applyOps s (putSteps e) =
      IStore.mk ((e.id, e) :: s.byId) ((indexEntries e).reverse ++ s.index) := by
  show applyOps (applyOp s (WriteOp.putEvent (e.id, e)))
    ((indexEntries e).map WriteOp.putIndex) = _
  rw [applyOps_putIndex]
  rfl

/-- C5: each event write is atomic — a failing write leaves the
reader-visible store exactly as it was, and a successful write persists the
event together with all of its index entries. -/
theorem put_write_atomic (s : IStore) (e : Event) (failAt : Option Nat) :
    (∀ err, putAtomic s e failAt = Except.error err →
      visibleAfter s (putAtomic s e failAt) = s) ∧
    (∀ s2, putAtomic s e failAt = Except.ok s2 →
      hasEvent s2 e = true ∧ hasAllIndexEntries s2 e = true) := by
  constructor
  · intro err herr
    rw [herr]
    rfl
  · intro s2 hok
    have hs2 : s2 = applyOps s (putSteps e) := by
      cases failAt with
      | none =>
        simp [putAtomic] at hok
        exact hok.symm
      | some k =>
        by_cases hlt : k < (putSteps e).length
        · simp [putAtomic, hlt] at hok
        · simp [putAtomic, hlt] at hok
          exact hok.symm
    subst hs2
    rw [applyOps_putSteps]
    constructor
    · simp [hasEvent]
    · rw [hasAllIndexEntries, List.all_eq_true]
      intro en hen
      rw [List.any_eq_true]
      exact ⟨en, by simp [List.mem_append, hen], by simp⟩

/-- The empty indexed store, used by the C5 witness. -/
def istore0 : IStore := IStore.mk [] []

/-- Witness for C5: a failure before the first step leaves the empty store
unchanged; the failure-free run persists the event and its entries. -/
theorem put_write_atomic_witness :
    visibleAfter istore0 (putAtomic istore0 ev0 (some 0)) = istore0 ∧
    hasEvent (applyOps istore0 (putSteps ev0)) ev0 = true ∧
    hasAllIndexEntries (applyOps istore0 (putSteps ev0)) ev0 = true := by
  have h1 := (put_write_atomic istore0 ev0 (some 0)).1 StorageError.ioFailure rfl
  have h2 := (put_write_atomic istore0 ev0 none).2 (applyOps istore0 (putSteps ev0)) rfl
  exact ⟨h1, h2.1, h2.2⟩

/-! ### Subscription registry and broadcast -/

/-- Modelled from the spec: §3 Connection — a connection id with the
filters of its registered subscriptions. -/
structure Conn where
  cid : Nat
  filters : List Filter
deriving DecidableEq, Repr

/-- Modelled from the spec: §4.4 Subscription Registry — the live
connections and, per connection id, the ordered outbound mailbox. -/
structure Registry where
  conns : List Conn
  mailbox : Nat → List Event

/-- An event matches a connection when it matches any of its filters
(OR across filters). -/
def connMatches (c : Conn) (e : Event) : Bool :=
  c.filters.any (fun f => matchEvent f e)

/-- Modelled from the spec: §4.4 `broadcast(event)` — evaluates the event
against every registered filter set and enqueues it at the tail of each
matching connection's mailbox. -/
def broadcast (r : Registry) (e : Event) : Registry :=
  Registry.mk r.conns (fun i =>
    if r.conns.any (fun c => c.cid == i && connMatches c e) then
      r.mailbox i ++ [e]
    else r.mailbox i)

/-- C6: for one connection, two broadcast events that both match it are
enqueued in broadcast-invocation order — the mailbox after broadcasting
`e1` then `e2` is the old mailbox with `e1` appended, then `e2`. -/
theorem broadcast_preserves_order (r : Registry) (c : Conn) (e1 e2 : Event)
    (hc : c ∈ r.conns) (h1 : connMatches c e1 = true)
    (h2 : connMatches c e2 = true) :
    (broadcast (broadcast r e1) e2).mailbox c.cid =
      r.mailbox c.cid ++ [e1] ++ [e2] := by
  have hany1 : ∃ x ∈ r.conns, x.cid = c.cid ∧ connMatches x e1 = true :=
    ⟨c, hc, rfl, h1⟩
  have hany2 : ∃ x ∈ r.conns, x.cid = c.cid ∧ connMatches x e2 = true :=
    ⟨c, hc, rfl, h2⟩
  simp [broadcast, hany1, hany2]

/-- A concrete connection for the C6 witness. -/
def conn0 : Conn := Conn.mk 7 [emptyFilter]

/-- A concrete registry for the C6 witness. -/
def reg0 : Registry := Registry.mk [conn0] (fun _ => [])

/-- Witness for C6 on a one-connection registry. -/
theorem broadcast_preserves_order_witness :
    (broadcast (broadcast reg0 ev1) ev2).mailbox conn0.cid =
      reg0.mailbox conn0.cid ++ [ev1] ++ [ev2] :=
  broadcast_preserves_order reg0 conn0 ev1 ev2
    (List.mem_singleton.mpr rfl) (by decide) (by decide)

/-! ### Event validation -/

/-- Modelled from the spec: §4.1 raw publish payload — the parsed fields of
a submitted event before validation. -/
structure RawEvent where
  id : String
  pubkey : String
  created_at : Int
  kind : Nat
  tags : List (List String)
  content : String
  sig : String
deriving DecidableEq, Repr

/-- Modelled from the spec: §7 `ValidationError` taxonomy for `validate`. -/
inductive ValidationError
| idMismatch
| badSignature
| createdTooFarInFuture
deriving DecidableEq, Repr

/-- Modelled from the spec: §3 — the content-derived id, a digest over the
canonical serialization of `(pubkey, created_at, kind, tags, content)`; the
digest is abstracted as the canonical serialization itself. -/
def computeId (pubkey : String) (created_at : Int) (kind : Nat)
    (tags : List (List String)) (content : String) : String :=
  String.intercalate ","
    ([pubkey, toString created_at, toString kind, toString tags.length,
      content] ++ tags.map (String.intercalate ":"))

/-- Modelled from the spec: §4.1 — signature verification against
`(pubkey, id)`, abstracted as a deterministic check tying `sig` to both. -/
def sigValid (sig pubkey id : String) : Bool :=
  sig == pubkey ++ id

/-- Modelled from the spec: §4.1 `validate(raw)` — recompute the id and
compare, verify the signature, apply the configurable future bound on
`created_at`, else accept the event unchanged. -/
def validate (maxFuture : Int) (r : RawEvent) : Except ValidationError Event :=
  if r.id ≠ computeId r.pubkey r.created_at r.kind r.tags r.content then
    Except.error ValidationError.idMismatch
  else if ¬ sigValid r.sig r.pubkey r.id = true then
    Except.error ValidationError.badSignature
  else if maxFuture < r.created_at then
    Except.error ValidationError.createdTooFarInFuture
  else
    Except.ok (Event.mk r.id r.pubkey r.created_at r.kind r.tags r.content r.sig)

/-- C7: `validate` is a function of its input alone — equal raw inputs give
equal results (same accepted event or same rejection), and any two
successful results of the same input carry the same id. -/
theorem validate_deterministic (m : Int) (r1 r2 : RawEvent) (h : r1 = r2) :
    validate m r1 = validate m r2 ∧
    ∀ e1 e2, validate m r1 = Except.ok e1 → validate m r2 = Except.ok e2 →
      e1.id = e2.id := by
  subst h
  refine ⟨rfl, ?_⟩
  intro e1 e2 h1 h2
  rw [h1] at h2
  cases h2
  rfl

/-- A raw event whose id and signature are well-formed by construction. -/
def raw0 : RawEvent :=
  RawEvent.mk (computeId "pk" 5 1 [] "c") "pk" 5 1 [] "c"
    ("pk" ++ computeId "pk" 5 1 [] "c")

/-- The event `validate` accepts for `raw0`. -/
def ev3 : Event :=
  Event.mk raw0.id raw0.pubkey raw0.created_at raw0.kind raw0.tags
    raw0.content raw0.sig

/-- Witness for C7 at a concrete raw input that validates. -/
theorem validate_deterministic_witness :
    validate 100 raw0 = validate 100 raw0 ∧ ev3.id = ev3.id := by
  have h := validate_deterministic 100 raw0 raw0 rfl
  refine ⟨h.1, h.2 ev3 ev3 ?_ ?_⟩ <;> rfl

/-! ### HTTP routing (embedded from src/relay/src/app.rs) -/

/-- An HTTP GET request as seen by `route::index`: its header map.  Header
names are stored lowercase, as actix normalizes them; a header whose value
is not readable as a string is absent from the map (`to_str` failure takes
the same fall-through branch as a missing header). -/
structure HttpReq where
  headers : List (String × String)
deriving DecidableEq, Repr

def getHeader (req : HttpReq) (n : String) : Option String :=
  (req.headers.find? (fun h => h.1 == n)).map Prod.snd

def hasHeader (req : HttpReq) (n : String) : Bool :=
  req.headers.any (fun h => h.1 == n)

/-- Contiguous-substring test, as `str::contains` on the header value. -/
def strContainsSub (s pat : String) : Bool :=
  s.toList.tails.any (fun t => pat.toList.isPrefixOf t)

/-- The responses `route::index` can produce. -/
inductive Response
| websocketSession
| infoDoc (contentType : String)
| plain (body : String)
deriving DecidableEq, Repr

/-- `route::information` (src/relay/src/app.rs:39-48): the rendered relay
information document with Content-Type `application/nostr+json`. -/
def information : Response := Response.infoDoc "application/nostr+json"

/-- `route::index` (src/relay/src/app.rs:50-67): an Upgrade header routes
to the WebSocket handler; otherwise an Accept header containing
`application/nostr+json` routes to `information`; otherwise the body is
`Hello World!`. -/
def index (req : HttpReq) : Response :=
  if hasHeader req "upgrade" then Response.websocketSession
  else
    match getHeader req "accept" with
    | some accept =>
      if strContainsSub accept "application/nostr+json" then information
      else Response.plain "Hello World!"
    | none => Response.plain "Hello World!"

/-- The dispatch rule as the claim states it: Upgrade wins regardless of
Accept; then the Accept substring test; then the literal body. -/
def claimDispatch (req : HttpReq) : Response :=
  if hasHeader req "upgrade" then Response.websocketSession
  else if (getHeader req "accept").elim false
      (fun a => strContainsSub a "application/nostr+json") then
    Response.infoDoc "application/nostr+json"
  else Response.plain "Hello World!"

/-- C8: `route::index` dispatches exactly as claimed — WebSocket on any
Upgrade header regardless of Accept, the relay-information document with
Content-Type `application/nostr+json` when Accept contains
`application/nostr+json`, else the body `Hello World!`. -/
theorem index_dispatch (req : HttpReq) : index req = claimDispatch req := by
  unfold index claimDispatch information
  by_cases hup : hasHeader req "upgrade" = true
  · simp [hup]
  · simp only [Bool.not_eq_true] at hup
    cases hacc : getHeader req "accept" with
    | none => simp [hup, hacc]
    | some a =>
      by_cases hsub : strContainsSub a "application/nostr+json" = true <;>
        simp [hup, hacc, hsub]

/-- `Setting.thread` (config consumed by `start_app`). -/
structure ThreadSetting where
  reader : Nat
deriving DecidableEq, Repr

/-- `Setting.db` (config consumed by `AppData::create`). -/
structure DbSetting where
  path : String
deriving DecidableEq, Repr

/-- The relay `Setting` fields the excerpt reads. -/
structure Setting where
  thread : ThreadSetting
  db : DbSetting
deriving DecidableEq, Repr

/-- `start_app` (src/relay/src/app.rs:144-158): HTTP worker count —
`num_cpus::get()` when `setting.thread.reader == 0`, else the configured
value. -/
def workerCount (s : Setting) (numCpus : Nat) : Nat :=
  if s.thread.reader = 0 then numCpus else s.thread.reader

/-- C9: the worker count is the machine's CPU count exactly when
`setting.thread.reader` is zero, and the configured value otherwise. -/
theorem workerCount_from_config (s : Setting) (c : Nat) :
    (s.thread.reader = 0 → workerCount s c = c) ∧
    (s.thread.reader ≠ 0 → workerCount s c = s.thread.reader) := by
  constructor <;> intro h <;> simp [workerCount, h]

/-- Witness for C9 at reader counts 0 and 3 with 8 CPUs. -/
theorem workerCount_from_config_witness :
    workerCount (Setting.mk (ThreadSetting.mk 0) (DbSetting.mk "d")) 8 = 8 ∧
    workerCount (Setting.mk (ThreadSetting.mk 3) (DbSetting.mk "d")) 8 = 3 :=
  ⟨(workerCount_from_config (Setting.mk (ThreadSetting.mk 0) (DbSetting.mk "d")) 8).1 rfl,
   (workerCount_from_config (Setting.mk (ThreadSetting.mk 3) (DbSetting.mk "d")) 8).2
     (by decide)⟩

/-- `Setting::default_wrapper()` as read by `AppData::create`; the concrete
default values are immaterial to the claim. -/
def defaultSetting : Setting :=
  Setting.mk (ThreadSetting.mk 0) (DbSetting.mk "./data")

/-- The fields of `AppData` the claim observes: which path the database
was opened at, and the setting wrapper stored in the result. -/
structure AppData where
  openedDbPath : String
  setting : Setting
deriving DecidableEq, Repr

/-- `AppData::create` (src/relay/src/app.rs:88-108): reads the default
setting, resolves the database path as the supplied `db_path` when present
and the default setting's `db.path` otherwise, opens the database there,
and returns the default setting wrapper. -/
def AppData.create (db_path : Option String) : AppData :=
  let setting := defaultSetting
  let path := (db_path.map (fun p => p)).getD setting.db.path
  AppData.mk path setting

/-- C10: `AppData::create` opens the database at the supplied path when one
is given, falls back to the default setting's `db.path` when none is, and
always returns the default setting wrapper. -/
theorem appdata_create_path (p : String) (o : Option String) :
    (AppData.create (some p)).openedDbPath = p ∧
    (AppData.create none).openedDbPath = defaultSetting.db.path ∧
    (AppData.create o).setting = defaultSetting := by
  refine ⟨rfl, rfl, ?_⟩
  cases o <;> rfl

end Rnostr
